import Mathlib

/-! Verification development for the vscode-project-dashboard extension.
The TypeScript sources are shallowly embedded below: pure functions become
Lean functions, JS runtime values (undefined/null, truthiness) are made
explicit, host-API calls (vscode commands, message boxes) are recorded as
effect values, and external builtins (regexes from the missing
`constants.ts`, `path.join`, `fs` reads, `child_process.execSync`) are
abstracted as parameters/oracles. -/

set_option maxRecDepth 10000

namespace VPD

/-! Utility section: character-list models of the JavaScript string
operations used by the sources (`startsWith`, `includes`, one-occurrence
`replace`, `trim`). They are written over `List Char` so that closed
instances reduce inside the kernel. -/

/-- Boolean prefix test on character lists. -/
def isPrefixList : List Char → List Char → Bool
  | [], _ => true
  | _ :: _, [] => false
  | p :: ps, c :: cs => p == c && isPrefixList ps cs

/-- Model of JavaScript `s.startsWith(pre)`. -/
def jsStartsWith (s pre : String) : Bool :=
  isPrefixList pre.data s.data

/-- Substring occurrence test on character lists. -/
def containsSub (pat : List Char) : List Char → Bool
  | [] => isPrefixList pat []
  | c :: cs => isPrefixList pat (c :: cs) || containsSub pat cs

/-- Model of JavaScript `s.includes(pat)`. -/
def strContains (s pat : String) : Bool :=
  containsSub pat.data s.data

/-- Replace the first occurrence of `pat` (non-empty) in a character list,
returning `none` when `pat` does not occur. -/
def replaceFirstAux (pat repl : List Char) : List Char → Option (List Char)
  | [] => none
  | c :: cs =>
    if isPrefixList pat (c :: cs) then some (repl ++ (c :: cs).drop pat.length)
    else (replaceFirstAux pat repl cs).map (fun r => c :: r)

/-- Model of JavaScript `s.replace(pat, repl)` with a string `pat`:
only the first occurrence is replaced; an empty pattern inserts `repl`
at the start, and a missing pattern leaves `s` unchanged. -/
def replaceFirst (s pat repl : String) : String :=
  if pat.data.isEmpty then repl ++ s
  else
    match replaceFirstAux pat.data repl.data s.data with
    | some r => ⟨r⟩
    | none => s

/-- The ASCII whitespace characters removed by `String.prototype.trim`
(the Unicode-only whitespace code points are not modelled). -/
def jsWhitespaceChar (c : Char) : Bool :=
  c == ' ' || c == '\t' || c == '\n' || c == '\r' || c == '\x0c' || c == '\x0b'

/-- Model of JavaScript `s.trim()`. -/
def jsTrim (s : String) : String :=
  ⟨((s.data.dropWhile jsWhitespaceChar).reverse.dropWhile jsWhitespaceChar).reverse⟩

/-- JS truthiness of a nullable string (`undefined`/`null` is `none`);
the empty string is falsy. -/
def strTruthy : Option String → Bool
  | none => false
  | some s => !s.data.isEmpty

/-! Remote-type classifier, from `src/models.ts` lines 55-68. -/

/-- The four project remote types of `src/models.ts` (enum
`ProjectRemoteType`). -/
inductive ProjectRemoteType where
  | None
  | SSH
  | WSL
  | CONTAINER
deriving DecidableEq

/-- Modelled from the spec: the repository's `constants.ts` (exporting
SSH_REMOTE_PREFIX, WSL_DEFAULT_REGEX and DEV_CONTAINER_PREFIX) is imported
by `src/models.ts` but is not among the given sources.  The spec (section
4.1) describes them only as "prefix/regex checks", so the SSH and container
patterns are abstract prefix strings (`sshRemotePfx`, `devContainerPfx`)
and the WSL regex test is an abstract Boolean predicate (`wslTest`). -/
structure RemoteConsts where
  sshRemotePfx : String
  wslTest : String → Bool
  devContainerPfx : String

/-- Embedding of `Project.getRemoteType` (`src/models.ts` lines 55-68);
the module-level `getRemoteType(project)` of lines 83-85 delegates to the
same body.  `path` is the project's `path` field, `none` standing for a
JS `null`/`undefined` value; every guard re-checks `this.path &&` exactly
as the source does. -/
def getRemoteType (c : RemoteConsts) (path : Option String) : ProjectRemoteType :=
  let s := path.getD ""
  if strTruthy path && jsStartsWith s c.sshRemotePfx then ProjectRemoteType.SSH
  else if strTruthy path && (c.wslTest s || jsStartsWith s "vscode-remote://wsl+") then
    ProjectRemoteType.WSL
  else if strTruthy path && jsStartsWith s c.devContainerPfx then ProjectRemoteType.CONTAINER
  else ProjectRemoteType.None

/-- Example instantiation of the abstract constants, used by the concrete
witnesses (an SSH prefix, a UNC-style WSL test, a container prefix). -/
def cEx : RemoteConsts :=
  { sshRemotePfx := "vscode-remote://ssh-remote+"
    wslTest := fun s => jsStartsWith s "\\\\wsl$\\"
    devContainerPfx := "vscode-remote://attached-container+" }

/-! Container hex descriptor, from `getContainerHex` in `src/models.ts`
lines 87-105. -/

/-- UTF-16 code units of one character, as produced by JavaScript
`charCodeAt` (characters beyond the BMP yield a surrogate pair). -/
def charUtf16Units (c : Char) : List Nat :=
  let v := c.toNat
  if v < 0x10000 then [v]
  else [0xD800 + (v - 0x10000) / 0x400, 0xDC00 + (v - 0x10000) % 0x400]

/-- UTF-16 code units of a string, in order. -/
def utf16CodeUnits (s : String) : List Nat :=
  (s.data.map charUtf16Units).flatten

/-- Model of JavaScript `n.toString(16)`: minimal lowercase hex digits. -/
def natToHex (n : Nat) : String :=
  ⟨Nat.toDigits 16 n⟩

/-- JSON string escaping of one character, as performed by
`JSON.stringify` on string values (quote, backslash, the short control
escapes, and `\u00XX` for the remaining control characters). -/
def jsonEscapeChar (c : Char) : String :=
  if c = '"' then "\\\""
  else if c = '\\' then "\\\\"
  else if c = '\x08' then "\\b"
  else if c = '\x0c' then "\\f"
  else if c = '\n' then "\\n"
  else if c = '\r' then "\\r"
  else if c = '\t' then "\\t"
  else if c.toNat < 0x20 then
    "\\u00" ++ ⟨[Nat.digitChar (c.toNat / 16), Nat.digitChar (c.toNat % 16)]⟩
  else ⟨[c]⟩

/-- JSON serialization of a string value (quotes plus escaping), as
produced by `JSON.stringify`. -/
def jsonQuote (s : String) : String :=
  "\"" ++ String.join (s.data.map jsonEscapeChar) ++ "\""

/-- The exact output of
`JSON.stringify(\x7b containerName: "/" + name, settings: \x7b context: ctx \x7d \x7d)`
built at `src/models.ts` lines 92-99: keys serialize in insertion order
and both string values go through JSON escaping. -/
def jsonStringifyContainerObject (name ctx : String) : String :=
  "\x7b\"containerName\":" ++ jsonQuote ("/" ++ name) ++
    ",\"settings\":\x7b\"context\":" ++ jsonQuote ctx ++ "\x7d\x7d"

/-- Embedding of `getContainerHex` (`src/models.ts` lines 87-105): `none`
models a JS `null` argument; otherwise the serialized container object has
every UTF-16 code unit rendered in minimal lowercase hex and concatenated. -/
def getContainerHex (containerName : Option String)
    (contextName : String := "desktop-linux") : Option String :=
  match containerName with
  | none => none
  | some name =>
    let objString := jsonStringifyContainerObject name contextName
    some ((utf16CodeUnits objString).foldl (fun acc u => acc ++ natToHex u) "")

/-- The claim's descriptor template, written by splicing the raw name and
context into `\x7b"containerName":"/<name>","settings":\x7b"context":"<ctx>"\x7d\x7d`
(it agrees with `jsonStringifyContainerObject` exactly when neither spliced
string needs JSON escaping). -/
def specContainerDescriptor (name ctx : String) : String :=
  "\x7b\"containerName\":" ++ ("\"" ++ ("/" ++ name) ++ "\"") ++
    ",\"settings\":\x7b\"context\":" ++ ("\"" ++ ctx ++ "\"") ++ "\x7d\x7d"

/-- Per-character (UTF-16 code unit) hex concatenation of a string, the
encoding loop of `src/models.ts` lines 100-103. -/
def hexOfString (s : String) : String :=
  (utf16CodeUnits s).foldl (fun acc u => acc ++ natToHex u) ""

/-! Open-routing, from `openProject` in `src/unnamed/part_001` lines
975-1057.  Host-API calls are recorded as `HostEffect` values, in order;
a JS exception escaping the handler is recorded as `thrownError`. -/

/-- The open modes of `src/models.ts` (enum `ProjectOpenType`). -/
inductive ProjectOpenType where
  | Default
  | NewWindow
  | AddToWorkspace
deriving DecidableEq

/-- Named capture groups of the abstract SSH_REGEX match used at
`part_001` line 1008; `folder` is `none` when the group is unmatched
(JS `undefined`). -/
structure SshGroups where
  folder : Option String
deriving DecidableEq

/-- Named capture groups of the abstract CONTAINER_REGEX match used at
`part_001` line 1032. -/
structure ContainerGroups where
  containername : Option String
  folder : Option String
deriving DecidableEq

/-- One host interaction performed by `openProject`. -/
inductive HostEffect where
  | warnMessage (msg : String)
  | openFolder (uri : String) (forceNewWindow : Bool)
  | newWindowCmd (remoteAuthority : String) (reuseWindow : Bool)
  | addToWorkspaceCall (uri : String)
  | thrownError
deriving DecidableEq

/-- Environment of `openProject`: the abstract constants, the external
Node/vscode builtins (`SSH_REGEX`/`CONTAINER_REGEX`/`WSL_DEFAULT_REGEX`
matching, `path.isAbsolute`, `path.join`, `vscode.Uri.file/parse`), the
workspace state (`vscode.workspace.workspaceFile?.path` and
`vscode.workspace.workspaceFolders`, `none` for `undefined`), and the
`prependVscodeUrlToWslRemotes` configuration flag. -/
structure OpenEnv where
  consts : RemoteConsts
  sshMatch : String → Option SshGroups
  containerMatch : String → Option ContainerGroups
  wslStrip : String → String
  isAbsolute : String → Bool
  joinPath : String → String → String
  uriFile : String → String
  uriParse : String → String
  workspaceFile : Option String
  workspaceFolders : Option (List String)
  prependVscodeUrlToWslRemotes : Bool

/-- Evaluation of
`vscode.workspace.workspaceFile?.path || vscode.workspace.workspaceFolders[0]?.uri.path`
(`part_001` lines 981-982) followed by the `if (rootPath)` truthiness test:
`.error` is the TypeError raised by indexing `workspaceFolders[0]` when
`workspaceFolders` is `undefined`; `.ok none` is a falsy root path. -/
def computeRootPath (env : OpenEnv) : Except Unit (Option String) :=
  let fromFolders : Except Unit (Option String) :=
    match env.workspaceFolders with
    | none => Except.error ()
    | some fs =>
      Except.ok (match fs.head? with
        | some f => if f.data.isEmpty then none else some f
        | none => none)
  match env.workspaceFile with
  | some wf => if wf.data.isEmpty then fromFolders else Except.ok (some wf)
  | none => fromFolders

/-- The `switch (remoteType)` dispatch of `openProject` (`part_001` lines
993-1056), applied to the already-resolved `projectPath`. -/
def dispatchOpen (env : OpenEnv) (remoteType : ProjectRemoteType)
    (projectPath : String) (openType : ProjectOpenType) : List HostEffect :=
  let openInNewWindow := openType == ProjectOpenType.NewWindow
  match remoteType with
  | ProjectRemoteType.None =>
    let uri := env.uriFile projectPath
    if openType == ProjectOpenType.AddToWorkspace then
      [HostEffect.addToWorkspaceCall uri]
    else
      [HostEffect.openFolder uri openInNewWindow]
  | ProjectRemoteType.SSH =>
    let remotePathMatch := env.sshMatch (replaceFirst projectPath env.consts.sshRemotePfx "")
    let hasRemoteFolder := match remotePathMatch with
      | some g => g.folder.isSome
      | none => false
    if hasRemoteFolder then
      [HostEffect.openFolder (env.uriParse projectPath) openInNewWindow]
    else
      [HostEffect.newWindowCmd (replaceFirst projectPath "vscode-remote://" "")
        (!openInNewWindow)]
  | ProjectRemoteType.WSL =>
    let projectPath :=
      if env.prependVscodeUrlToWslRemotes && env.consts.wslTest projectPath then
        "vscode-remote://wsl+" ++ env.wslStrip projectPath
      else projectPath
    [HostEffect.openFolder (env.uriParse projectPath) openInNewWindow]
  | ProjectRemoteType.CONTAINER =>
    match env.containerMatch (replaceFirst projectPath env.consts.devContainerPfx "") with
    | none =>
      -- line 1033 reads `containerPathMatch.groups` on a null match: TypeError
      [HostEffect.thrownError]
    | some groups =>
      -- an unmatched `containername` group is `undefined`; it fails the
      -- `=== null` test in getContainerHex and `"/" + undefined` coerces
      -- to the string "/undefined"
      let containerName := groups.containername.getD "undefined"
      match getContainerHex (some containerName) with
      | none => []
      | some containerHex =>
        let projectPath := replaceFirst projectPath
          (env.consts.devContainerPfx ++ containerName)
          (env.consts.devContainerPfx ++ containerHex)
        if groups.folder.isSome then
          [HostEffect.openFolder (env.uriParse projectPath) openInNewWindow]
        else
          [HostEffect.newWindowCmd (replaceFirst projectPath "vscode-remote://" "")
            (!openInNewWindow)]

/-- Embedding of `openProject` (`part_001` lines 975-1057).  The project's
`path` field comes in as `projectPathRaw` (`none` for `null`/`undefined`);
the remote type is computed on the raw path, the trimmed path is resolved
against the workspace root when it is relative, and the result is the list
of host effects the call performs. -/
def openProject (env : OpenEnv) (projectPathRaw : Option String)
    (openType : ProjectOpenType) : List HostEffect :=
  let remoteType := getRemoteType env.consts projectPathRaw
  let projectPath := jsTrim (projectPathRaw.getD "")
  if !env.isAbsolute projectPath && !strContains projectPath "://" then
    match computeRootPath env with
    | Except.error _ => [HostEffect.thrownError]
    | Except.ok none =>
      [HostEffect.warnMessage
        "Tried to open a project with a relative path, but no workspace is open."]
    | Except.ok (some root) =>
      dispatchOpen env remoteType (env.joinPath root projectPath) openType
  else
    dispatchOpen env remoteType projectPath openType

/-! Data model and `reorderGroups`, from `src/models.ts` (classes
`Project`/`Group`, interface `GroupOrder`) and `part_001` lines 1760-1794.
Runtime group records are parsed from JSON, so `groupName` and `projects`
may be `null`/absent (`none`). -/

/-- A stored project record; the fields set by the `Project` constructor. -/
structure Project where
  id : String
  name : String
  path : String
deriving DecidableEq

/-- A stored group record.  `projects` is `none` when the persisted JSON
holds `null` there (the guard at `part_001` line 1771); the `Group`
constructor itself always produces `some []` or the given list.
`collapsed` is left `false` by the constructor (JS `undefined`, falsy). -/
structure Group where
  id : String
  groupName : Option String
  collapsed : Bool
  projects : Option (List Project)
deriving DecidableEq

/-- The `GroupOrder` interface of `src/models.ts` lines 117-120. -/
structure GroupOrder where
  groupId : String
  projectIds : List String
deriving DecidableEq

/-- JS `Map.prototype.set`: update the value at an existing key in place,
otherwise append the new entry. -/
def mapSet : List (String × Project) → String → Project → List (String × Project)
  | [], k, v => [(k, v)]
  | kv :: rest, k, v =>
    if kv.1 == k then (k, v) :: rest else kv :: mapSet rest k v

/-- JS `Map.prototype.get` (`none` for `undefined`). -/
def mapGet (m : List (String × Project)) (k : String) : Option Project :=
  (m.find? (fun kv => kv.1 == k)).map (fun kv => kv.2)

/-- The projectMap construction of `part_001` lines 1769-1778: every
project of every group (groups with a `null` projects list skipped) is
inserted keyed by its id. -/
def buildProjectMap (groups : List Group) : List (String × Project) :=
  groups.foldl
    (fun m g =>
      match g.projects with
      | none => m
      | some ps => ps.foldl (fun m p => mapSet m p.id p) m)
    []

/-- All project ids present in the given group list, in order (the
"original set of projects" of the reorder claim). -/
def originalProjectIds (groups : List Group) : List String :=
  ((groups.filterMap Group.projects).flatten).map Project.id

/-- One iteration of the reorder loop (`part_001` lines 1782-1790): find
the existing group by id, otherwise create a fresh one named after the
current length of the rebuilt array (`k` entries built so far, so the new
group is "Group #(k+1)"); then overwrite its projects with the mapped,
null-filtered project list.  `newId` is the oracle for the random id the
`Group` constructor would generate. -/
def reorderEntry (pm : List (String × Project)) (groups : List Group)
    (newId : Nat → String) (k : Nat) (o : GroupOrder) : Group :=
  let base :=
    match groups.find? (fun g => g.id == o.groupId) with
    | some g => g
    | none =>
      { id := newId k
        groupName := some ("Group #" ++ toString (k + 1))
        collapsed := false
        projects := some [] }
  { base with projects := some (o.projectIds.filterMap (mapGet pm)) }

/-- The reorder loop over all `groupOrders`, carrying the number of
entries already built. -/
def reorderLoop (pm : List (String × Project)) (groups : List Group)
    (newId : Nat → String) : List GroupOrder → Nat → List Group
  | [], _ => []
  | o :: rest, k =>
    reorderEntry pm groups newId k o :: reorderLoop pm groups newId rest (k + 1)

/-- Embedding of `reorderGroups` (`part_001` lines 1760-1794), as the list
of groups passed to `projectService.saveGroups`.  The `groupOrders == null`
early-return guard is outside this model (the argument is a real list);
JS object aliasing is modelled by values, which coincides with the source
whenever the requested group ids are distinct. -/
def reorderGroups (newId : Nat → String) (groups : List Group)
    (groupOrders : List GroupOrder) : List Group :=
  reorderLoop (buildProjectMap groups) groups newId groupOrders 0

/-! Manual-edit validation, from the `onWillSaveTextDocument` handler of
`editProjectsManuallyPerCommand` (`part_001` lines 1657-1737).  The parsed
document is a JSON value; JS truthiness, loose `== null` comparison and
strict-mode property assignment on primitives are modelled explicitly. -/

/-- Parsed JSON values (`JSON.parse` output: no `undefined` inside). -/
inductive JsonVal where
  | null
  | bool (b : Bool)
  | num (n : Int)
  | str (s : String)
  | arr (xs : List JsonVal)
  | obj (fields : List (String × JsonVal))

/-- JS property read `v[k]` on a non-nullish value: `none` is `undefined`
(primitives and arrays have none of the named properties used here). -/
def jsGet : JsonVal → String → Option JsonVal
  | JsonVal.obj fs, k => (fs.find? (fun kv => kv.1 == k)).map (fun kv => kv.2)
  | _, _ => none

/-- JS truthiness of a JSON value (`NaN` does not arise from our `Int`
model of numbers). -/
def jsTruthy : JsonVal → Bool
  | JsonVal.null => false
  | JsonVal.bool b => b
  | JsonVal.num n => n != 0
  | JsonVal.str s => !s.data.isEmpty
  | JsonVal.arr _ => true
  | JsonVal.obj _ => true

/-- JS truthiness of a possibly-`undefined` value. -/
def jsTruthyOpt : Option JsonVal → Bool
  | none => false
  | some v => jsTruthy v

/-- JS loose comparison `v == null` (true exactly for `null` and
`undefined`). -/
def looseNull : Option JsonVal → Bool
  | none => true
  | some JsonVal.null => true
  | some _ => false

/-- JS `!v.length` for a value known not to be nullish: falsy length for
empty arrays and strings, and `undefined` (hence falsy) `length` on every
other value. -/
def jsLengthFalsy : Option JsonVal → Bool
  | some (JsonVal.arr xs) => xs.isEmpty
  | some (JsonVal.str s) => s.data.isEmpty
  | _ => true

/-- JS `Array.isArray(v)` on a possibly-`undefined` value. -/
def isArrayOpt : Option JsonVal → Bool
  | some (JsonVal.arr _) => true
  | _ => false

/-- JS property write `v[k] = x` on an object (update in place or append);
the non-object case is unused because every call site guards it. -/
def objSet (v : JsonVal) (k : String) (x : JsonVal) : JsonVal :=
  match v with
  | JsonVal.obj fs =>
    if fs.any (fun kv => kv.1 == k) then
      JsonVal.obj (fs.map (fun kv => if kv.1 == k then (k, x) else kv))
    else
      JsonVal.obj (fs ++ [(k, x)])
  | other => other

/-- JS `delete v[k]` on an object. -/
def objDelete (v : JsonVal) (k : String) : JsonVal :=
  match v with
  | JsonVal.obj fs => JsonVal.obj (fs.filter (fun kv => kv.1 != k))
  | other => other

/-- The legacy-name fixup of `part_001` lines 1672-1678: when `group.name`
is truthy and `group.groupName` is not, copy `name` into `groupName` and
delete `name`. -/
def fixupName (g : JsonVal) : JsonVal :=
  if jsTruthyOpt (jsGet g "name") && !jsTruthyOpt (jsGet g "groupName") then
    objDelete (objSet g "groupName" ((jsGet g "name").getD JsonVal.null)) "name"
  else g

/-- The per-project validity test of `part_001` line 1698:
`!(!project || !project.id || !project.name || !project.path)`. -/
def projectValid (p : JsonVal) : Bool :=
  jsTruthy p && jsTruthyOpt (jsGet p "id") && jsTruthyOpt (jsGet p "name") &&
    jsTruthyOpt (jsGet p "path")

/-- The "empty, unnamed group" condition of `part_001` lines 1680-1684:
the group is truthy, its `groupName` is loosely null, and its `projects`
is loosely null or has falsy length. -/
def emptyUnnamedCond (g : JsonVal) : Bool :=
  jsTruthy g && looseNull (jsGet g "groupName") &&
    (looseNull (jsGet g "projects") || jsLengthFalsy (jsGet g "projects"))

/-- Result of processing one element of the parsed group array. -/
inductive GroupStep where
  | throwStep
  | deleteStep
  | invalidBreak
  | invalidCont
  | keep (g : JsonVal)

/-- Processing of one group element of the loop at `part_001` lines
1671-1707.  A `null` element throws at the very first property read
(`group.name`); a truthy primitive element throws when the handler assigns
`group._delete` in strict mode; an empty unnamed group (or array element)
is marked for deletion; the group-level checks of lines 1687-1693 break
the outer loop; a bad project of lines 1697-1701 only breaks the inner
loop (processing continues); otherwise the group is kept with each
project's obsolete `imageFileName` property deleted. -/
def groupStep (g : JsonVal) : GroupStep :=
  match g with
  | JsonVal.null => GroupStep.throwStep
  | _ =>
    let g := fixupName g
    if emptyUnnamedCond g then
      match g with
      | JsonVal.obj _ => GroupStep.deleteStep
      | JsonVal.arr _ => GroupStep.deleteStep
      | _ => GroupStep.throwStep
    else if !jsTruthy g || !jsTruthyOpt (jsGet g "id") || looseNull (jsGet g "groupName")
        || !jsTruthyOpt (jsGet g "projects") || !isArrayOpt (jsGet g "projects") then
      GroupStep.invalidBreak
    else
      match jsGet g "projects" with
      | some (JsonVal.arr ps) =>
        if ps.all projectValid then
          GroupStep.keep
            (objSet g "projects"
              (JsonVal.arr (ps.map (fun p => objDelete p "imageFileName"))))
        else GroupStep.invalidCont
      | _ => GroupStep.invalidBreak

/-- Outcome of the save handler: which user-visible message was shown,
whether a JS exception escaped, or which group list was persisted. -/
inductive SaveResult where
  | parseError
  | schemaError
  | thrown
  | saved (groups : List JsonVal)

/-- The validation loop (`part_001` lines 1670-1707) with the accumulated
`jsonIsInvalid` flag and the groups processed so far, followed by the
post-loop invalid check (lines 1712-1717) and the `_delete` filter plus
`saveGroups` call (lines 1719-1721). -/
def editLoop : List JsonVal → Bool → List JsonVal → SaveResult
  | [], invalid, kept =>
    if invalid then SaveResult.schemaError
    else SaveResult.saved (kept.filter (fun g => !jsTruthyOpt (jsGet g "_delete")))
  | g :: rest, invalid, kept =>
    match groupStep g with
    | GroupStep.throwStep => SaveResult.thrown
    | GroupStep.deleteStep => editLoop rest invalid kept
    | GroupStep.invalidBreak => SaveResult.schemaError
    | GroupStep.invalidCont => editLoop rest true kept
    | GroupStep.keep g => editLoop rest invalid (kept ++ [g])

/-- Validation and persistence of a parsed document that is a JSON array. -/
def processGroups (gs : List JsonVal) : SaveResult :=
  editLoop gs false []

/-- Embedding of the manual-edit save handler (`part_001` lines
1657-1721).  The input is the result of `JSON.parse` of the document text
(`none` when parsing threw, which the handler reports as
"Edited Projects File can not be parsed."); a non-array document fails the
`Array.isArray` check of line 1670 and is reported as a schema error. -/
def handleManualEditSave (parsed : Option JsonVal) : SaveResult :=
  match parsed with
  | none => SaveResult.parseError
  | some (JsonVal.arr gs) => processGroups gs
  | some _ => SaveResult.schemaError

/-- The claim's well-formed group: an object carrying a truthy `id`, a
truthy `groupName`, and a `projects` array whose members all carry truthy
`id`, `name` and `path`. -/
def wellFormedGroupB (g : JsonVal) : Bool :=
  match g with
  | JsonVal.obj _ =>
    jsTruthyOpt (jsGet g "id") && jsTruthyOpt (jsGet g "groupName") &&
      (match jsGet g "projects" with
       | some (JsonVal.arr ps) => ps.all projectValid
       | _ => false)
  | _ => false

/-- The claim's expected document schema: a JSON array of well-formed
groups. -/
def specSchemaOkB : JsonVal → Bool
  | JsonVal.arr gs => gs.all wellFormedGroupB
  | _ => false

/-! Fail-closed helpers: `isFolderGitRepo` (`part_001` lines 1796-1806)
and `Project.getWorkspaceColor` (`src/models.ts` lines 38-53).  The
filesystem and child-process builtins they wrap are oracles that either
return a value or throw (`Except.error`). -/

/-- External world of `isFolderGitRepo`: `lstatSync(fPath).isDirectory()`
(throwing on a missing path), `path.dirname`, and the output of
`execSync("cd ... && git rev-parse --is-inside-work-tree")` (throwing when
the command fails). -/
structure GitEnv where
  lstatIsDirectory : String → Except Unit Bool
  dirname : String → String
  gitCheckOutput : String → Except Unit String

/-- Embedding of `isFolderGitRepo` (`part_001` lines 1796-1806): the body
runs under `try`, any throw is caught and turned into `false`, and a
successful run returns the truthiness (`!!test`) of the command output. -/
def isFolderGitRepo (env : GitEnv) (fPath : String) : Bool :=
  let attempt : Except Unit Bool := do
    let isDir ← env.lstatIsDirectory fPath
    let p := if isDir then fPath else env.dirname fPath
    let out ← env.gitCheckOutput p
    pure (!out.data.isEmpty)
  match attempt with
  | Except.ok b => b
  | Except.error _ => false

/-- Strip `//`-to-end-of-line runs, the effect of
`.replace(/(\/\/.*)/gi, '')` at `src/models.ts` line 41 (the regex dot
does not cross newlines, so each match runs to the next newline, which is
kept). -/
def stripCommentsAux : List Char → List Char
  | [] => []
  | '/' :: '/' :: rest => stripCommentsSkip rest
  | c :: rest => c :: stripCommentsAux rest
where
  /-- Skip to the next newline (exclusive) and resume stripping. -/
  stripCommentsSkip : List Char → List Char
    | [] => []
    | '\n' :: rest => '\n' :: stripCommentsAux rest
    | _ :: rest => stripCommentsSkip rest

/-- String-level comment stripping. -/
def stripLineComments (s : String) : String :=
  ⟨stripCommentsAux s.data⟩

/-- External world of `getWorkspaceColor`: `readFileSync` (throwing on an
unreadable file) and `JSON.parse` (throwing on malformed text). -/
structure ColorEnv where
  readFile : String → Except Unit String
  parseJson : String → Except Unit JsonVal

/-- Embedding of `Project.getWorkspaceColor` (`src/models.ts` lines
38-53) for a project with path `projectPath`.  Reading
`settings['workbench.colorCustomizations']` on a parsed value and then
indexing into it follows JS semantics: when the customizations entry is
`undefined` or `null` the inner index throws, the `catch` turns every
throw into `null`, and otherwise the first truthy of the two color keys is
returned (`none` collapses the JS `null`/`undefined` results). -/
def getWorkspaceColor (env : ColorEnv) (projectPath : String) : Option JsonVal :=
  let attempt : Except Unit (Option JsonVal) := do
    let fileContent ← env.readFile (projectPath ++ "/.vscode/settings.json")
    let settings ← env.parseJson (jsTrim (stripLineComments fileContent))
    match jsGet settings "workbench.colorCustomizations" with
    | none => Except.error ()
    | some JsonVal.null => Except.error ()
    | some cc =>
      let c1 := jsGet cc "titleBar.activeBackground"
      pure (if jsTruthyOpt c1 then c1 else jsGet cc "activityBar.background")
  match attempt with
  | Except.ok c => c
  | Except.error _ => none

/-! Concrete instances used by the witnesses and counterexamples. -/

/-- An open-routing environment with no workspace open:
`vscode.workspace.workspaceFile` and `vscode.workspace.workspaceFolders`
are both `undefined`, `path.isAbsolute`/`path.join` are the POSIX ones. -/
def envNoWorkspace : OpenEnv :=
  { consts := cEx
    sshMatch := fun _ => none
    containerMatch := fun _ => none
    wslStrip := fun s => s
    isAbsolute := fun s => jsStartsWith s "/"
    joinPath := fun a b => a ++ "/" ++ b
    uriFile := fun s => s
    uriParse := fun s => s
    workspaceFile := none
    workspaceFolders := none
    prependVscodeUrlToWslRemotes := false }

/-- The same environment with a defined-but-empty folder list (the only
situation in which the code's own warning branch is reachable). -/
def envEmptyFolderList : OpenEnv :=
  { envNoWorkspace with workspaceFolders := some [] }

/-- The same environment with one open workspace folder. -/
def envWithWorkspace : OpenEnv :=
  { envNoWorkspace with workspaceFolders := some ["/home/user/ws"] }

/-- A container-project environment: the abstract CONTAINER_REGEX parses
"mycontainer/work" into a container name and a folder. -/
def envContainer : OpenEnv :=
  { envNoWorkspace with
    containerMatch := fun s =>
      if s == "mycontainer/work" then
        some { containername := some "mycontainer", folder := some "/work" }
      else none }

/-- A git environment whose `lstatSync` always throws. -/
def gitEnvLstatThrows : GitEnv :=
  { lstatIsDirectory := fun _ => Except.error ()
    dirname := fun s => s
    gitCheckOutput := fun _ => Except.ok "true\n" }

/-- A color environment whose `readFileSync` always throws. -/
def colorEnvUnreadable : ColorEnv :=
  { readFile := fun _ => Except.error ()
    parseJson := fun _ => Except.ok JsonVal.null }

/-- A manual-edit document entry with a legacy `name` but no `groupName`,
no `projects` and no `id`. -/
def legacyNameGroup : JsonVal :=
  JsonVal.obj [("name", JsonVal.str "x")]

/-- Example stored groups for the reorder witnesses. -/
def groupsEx : List Group :=
  [ { id := "g1", groupName := some "Alpha", collapsed := false
      projects := some [⟨"p1", "proj one", "/a"⟩, ⟨"p2", "proj two", "/b"⟩] }
  , { id := "g2", groupName := some "Beta", collapsed := true
      projects := some [⟨"p3", "proj three", "/c"⟩] } ]

/-- Example reorder request: move `p3` and `p1` into `g1` (dropping the
unknown id `zz`), and send `p2` to a group id that does not exist. -/
def ordersEx : List GroupOrder :=
  [ { groupId := "g1", projectIds := ["p3", "zz", "p1"] }
  , { groupId := "gNew", projectIds := ["p2"] } ]

/-- Deterministic id oracle for the reorder witnesses. -/
def newIdEx : Nat → String := fun k => "fresh" ++ toString k

/-! Theorems. -/

/-- C1: `getRemoteType` classifies every non-empty path string into
exactly one of None, SSH, WSL, CONTAINER, with the checks in fixed
priority order: it returns SSH exactly on paths matching the SSH prefix;
WSL exactly on paths that do not match the SSH prefix but match the WSL
pattern (the abstract regex or the literal `vscode-remote://wsl+`
prefix); CONTAINER exactly on paths matching neither of those but the
container prefix; and None exactly on all remaining strings. -/
theorem C1_remote_type_priority (c : RemoteConsts) (p : String) (hp : p ≠ "") :
    (getRemoteType c (some p) = ProjectRemoteType.SSH ↔
      jsStartsWith p c.sshRemotePfx = true) ∧
    (getRemoteType c (some p) = ProjectRemoteType.WSL ↔
      (jsStartsWith p c.sshRemotePfx = false ∧
        (c.wslTest p = true ∨ jsStartsWith p "vscode-remote://wsl+" = true))) ∧
    (getRemoteType c (some p) = ProjectRemoteType.CONTAINER ↔
      (jsStartsWith p c.sshRemotePfx = false ∧ c.wslTest p = false ∧
        jsStartsWith p "vscode-remote://wsl+" = false ∧
        jsStartsWith p c.devContainerPfx = true)) ∧
    (getRemoteType c (some p) = ProjectRemoteType.None ↔
      (jsStartsWith p c.sshRemotePfx = false ∧ c.wslTest p = false ∧
        jsStartsWith p "vscode-remote://wsl+" = false ∧
        jsStartsWith p c.devContainerPfx = false)) := by
  have htr : strTruthy (some p) = true := by
    cases hm : p.data with
    | nil =>
      exact absurd (by cases p with | mk d => simp at hm; simp [hm]) hp
    | cons a l => simp [strTruthy, hm]
  cases h1 : jsStartsWith p c.sshRemotePfx <;>
    cases h2 : c.wslTest p <;>
      cases h3 : jsStartsWith p "vscode-remote://wsl+" <;>
        cases h4 : jsStartsWith p c.devContainerPfx <;>
          simp [getRemoteType, htr, h1, h2, h3, h4]

/-- Witness for C1 at the example constants: an SSH-prefixed path is
classified as SSH. -/
theorem C1_remote_type_priority_witness :
    getRemoteType cEx (some "vscode-remote://ssh-remote+host/folder") =
      ProjectRemoteType.SSH :=
  ((C1_remote_type_priority cEx "vscode-remote://ssh-remote+host/folder"
    (by decide)).1).mpr (by decide)

/-- C2: `getRemoteType` is a total pure function over all inputs: a
`null`/`undefined` path and the empty string classify as None, every
input yields one of the four enum values (no failure mode), and every
string recognized by none of the three patterns falls through to None. -/
theorem C2_total_fallback (c : RemoteConsts) :
    getRemoteType c none = ProjectRemoteType.None ∧
    getRemoteType c (some "") = ProjectRemoteType.None ∧
    (∀ p : Option String,
      getRemoteType c p = ProjectRemoteType.None ∨
      getRemoteType c p = ProjectRemoteType.SSH ∨
      getRemoteType c p = ProjectRemoteType.WSL ∨
      getRemoteType c p = ProjectRemoteType.CONTAINER) ∧
    (∀ s : String, jsStartsWith s c.sshRemotePfx = false → c.wslTest s = false →
      jsStartsWith s "vscode-remote://wsl+" = false →
      jsStartsWith s c.devContainerPfx = false →
      getRemoteType c (some s) = ProjectRemoteType.None) := by
  refine ⟨by simp [getRemoteType, strTruthy], by simp [getRemoteType, strTruthy], ?_, ?_⟩
  · intro p
    cases h : getRemoteType c p with
    | None => exact Or.inl rfl
    | SSH => exact Or.inr (Or.inl rfl)
    | WSL => exact Or.inr (Or.inr (Or.inl rfl))
    | CONTAINER => exact Or.inr (Or.inr (Or.inr rfl))
  · intro s h1 h2 h3 h4
    simp [getRemoteType, h1, h2, h3, h4]

/-- Witness for C2: a plain local path matches none of the example
patterns and classifies as None. -/
theorem C2_total_fallback_witness :
    getRemoteType cEx (some "/home/user/project") = ProjectRemoteType.None :=
  (C2_total_fallback cEx).2.2.2 "/home/user/project"
    (by decide) (by decide) (by decide) (by decide)

/-- C3: `getContainerHex` is deterministic: a null container name yields
null; a non-null name (with a context name defaulting to
"desktop-linux") yields exactly the per-UTF-16-code-unit lowercase-hex
concatenation of the JSON descriptor
`\x7b"containerName":"/<name>","settings":\x7b"context":"<ctx>"\x7d\x7d`
(stated for names and contexts whose JSON serialization needs no
escaping, where the claim's spliced template and `JSON.stringify`
coincide); and `openProject` dispatches a container project with that hex
descriptor substituted for the container name in the path, in both the
folder (`vscode.openFolder`) and no-folder (`vscode.newWindow`) forms. -/
theorem C3_container_hex_descriptor :
    (∀ ctx : String, getContainerHex none ctx = none) ∧
    (∀ name ctx : String,
      jsonQuote ("/" ++ name) = "\"" ++ ("/" ++ name) ++ "\"" →
      jsonQuote ctx = "\"" ++ ctx ++ "\"" →
      getContainerHex (some name) ctx =
        some (hexOfString (specContainerDescriptor name ctx))) ∧
    (∀ (env : OpenEnv) (pRaw : Option String) (openType : ProjectOpenType)
        (name : String) (folderOpt : Option String),
      getRemoteType env.consts pRaw = ProjectRemoteType.CONTAINER →
      strContains (jsTrim (pRaw.getD "")) "://" = true →
      env.containerMatch
          (replaceFirst (jsTrim (pRaw.getD "")) env.consts.devContainerPfx "") =
        some { containername := some name, folder := folderOpt } →
      openProject env pRaw openType =
        (let subst := replaceFirst (jsTrim (pRaw.getD ""))
            (env.consts.devContainerPfx ++ name)
            (env.consts.devContainerPfx ++ ((getContainerHex (some name)).getD ""))
         if folderOpt.isSome then
           [HostEffect.openFolder (env.uriParse subst)
             (openType == ProjectOpenType.NewWindow)]
         else
           [HostEffect.newWindowCmd (replaceFirst subst "vscode-remote://" "")
             (!(openType == ProjectOpenType.NewWindow))])) := by
  refine ⟨fun ctx => rfl, ?_, ?_⟩
  · intro name ctx h1 h2
    simp [getContainerHex, hexOfString, jsonStringifyContainerObject,
      specContainerDescriptor, h1, h2]
  · intro env pRaw openType name folderOpt h1 h2 h3
    simp only [openProject, h1, h2, Bool.not_true, Bool.and_false,
      Bool.false_eq_true, if_false, dispatchOpen, h3, Option.getD_some,
      getContainerHex]

/-- Witness for C3: the hex-descriptor formula and the container dispatch
at a concrete container project. -/
theorem C3_container_hex_descriptor_witness :
    getContainerHex (some "mycontainer") "desktop-linux" =
      some (hexOfString (specContainerDescriptor "mycontainer" "desktop-linux")) ∧
    openProject envContainer
        (some "vscode-remote://attached-container+mycontainer/work")
        ProjectOpenType.Default =
      [HostEffect.openFolder
        ("vscode-remote://attached-container+" ++
          ((getContainerHex (some "mycontainer")).getD "") ++ "/work") false] :=
  ⟨C3_container_hex_descriptor.2.1 "mycontainer" "desktop-linux" rfl rfl,
   Eq.trans
     (C3_container_hex_descriptor.2.2 envContainer
       (some "vscode-remote://attached-container+mycontainer/work")
       ProjectOpenType.Default "mycontainer" (some "/work") rfl rfl rfl)
     rfl⟩

/-- C4: evaluation of `openProject` on a relative project path.  With a
workspace folder open the path is resolved against the workspace root and
opened.  But when no workspace is open (`workspaceFile` and
`workspaceFolders` both `undefined`, the vscode API state the claim
describes), line 982 indexes `vscode.workspace.workspaceFolders[0]` on
`undefined` and throws a TypeError before the warning of line 986 can be
shown — the claimed user-visible message appears only in the otherwise
unreachable situation of a defined but empty folder list. -/
theorem C4_relative_path_no_workspace :
    openProject envWithWorkspace (some "my/project") ProjectOpenType.Default =
      [HostEffect.openFolder "/home/user/ws/my/project" false] ∧
    openProject envNoWorkspace (some "my/project") ProjectOpenType.Default =
      [HostEffect.thrownError] ∧
    openProject envEmptyFolderList (some "my/project") ProjectOpenType.Default =
      [HostEffect.warnMessage
        "Tried to open a project with a relative path, but no workspace is open."] :=
  ⟨rfl, rfl, rfl⟩

/-- Lookup after an insert: the inserted key now maps to the inserted
value and every other key is untouched. -/
theorem mapGet_mapSet (m : List (String × Project)) (k k' : String) (v : Project) :
    mapGet (mapSet m k v) k' = if k' = k then some v else mapGet m k' := by
  induction m with
  | nil =>
    by_cases h : k' = k
    · subst h
      simp [mapSet, mapGet, List.find?]
    · rw [if_neg h]
      unfold mapSet mapGet
      rw [List.find?_cons_of_neg _
        (by simp [beq_eq_false_iff_ne]; exact fun hh => h hh.symm)]
  | cons kv rest ih =>
    simp only [mapSet]
    by_cases h1 : kv.1 = k
    · rw [if_pos (beq_iff_eq.mpr h1)]
      by_cases hk : k' = k
      · subst hk
        rw [if_pos rfl]
        unfold mapGet
        rw [List.find?_cons_of_pos _ (by simp)]
        rfl
      · rw [if_neg hk]
        unfold mapGet
        rw [List.find?_cons_of_neg _
          (by simp [beq_eq_false_iff_ne]; exact fun hh => hk hh.symm)]
        rw [List.find?_cons_of_neg _
          (by simp [beq_eq_false_iff_ne]; rw [h1]; exact fun hh => hk hh.symm)]
    · rw [if_neg (by simp [beq_eq_false_iff_ne]; exact h1)]
      by_cases h2 : kv.1 = k'
      · have hk : ¬k' = k := fun hh => h1 (by rw [h2, hh])
        rw [if_neg hk]
        unfold mapGet
        rw [List.find?_cons_of_pos _ (by simp [beq_iff_eq, h2]),
          List.find?_cons_of_pos _ (by simp [beq_iff_eq, h2])]
      · by_cases hk : k' = k
        · rw [if_pos hk]
          unfold mapGet
          rw [List.find?_cons_of_neg _ (by simp [beq_eq_false_iff_ne]; exact h2)]
          have := ih
          unfold mapGet at this
          rw [this, if_pos hk]
        · rw [if_neg hk]
          unfold mapGet
          rw [List.find?_cons_of_neg _ (by simp [beq_eq_false_iff_ne]; exact h2),
            List.find?_cons_of_neg _ (by simp [beq_eq_false_iff_ne]; exact h2)]
          have := ih
          unfold mapGet at this
          rw [this, if_neg hk]

/-- Every entry inserted by the project-map construction is keyed by its
project's id. -/
theorem mapSet_key_id (m : List (String × Project)) (k : String) (v : Project)
    (hm : ∀ kv ∈ m, kv.2.id = kv.1) (hv : v.id = k) :
    ∀ kv ∈ mapSet m k v, kv.2.id = kv.1 := by
  induction m with
  | nil => simp [mapSet, hv]
  | cons kv₀ rest ih =>
    intro kv hkv
    simp only [mapSet] at hkv
    by_cases h : kv₀.1 = k
    · rw [if_pos (beq_iff_eq.mpr h)] at hkv
      rcases List.mem_cons.mp hkv with h1 | h2
      · simp [h1, hv]
      · exact hm kv (List.mem_cons_of_mem kv₀ h2)
    · rw [if_neg (by simp [beq_iff_eq, h])] at hkv
      rcases List.mem_cons.mp hkv with h1 | h2
      · exact hm kv (h1 ▸ List.mem_cons_self kv₀ rest)
      · exact ih (fun kv h => hm kv (List.mem_cons_of_mem kv₀ h)) kv h2

/-- The id-keying invariant is preserved by a whole projects fold. -/
theorem foldl_mapSet_key_id (ps : List Project) (m : List (String × Project))
    (hm : ∀ kv ∈ m, kv.2.id = kv.1) :
    ∀ kv ∈ ps.foldl (fun m p => mapSet m p.id p) m, kv.2.id = kv.1 := by
  induction ps generalizing m with
  | nil => exact hm
  | cons p ps ih => exact ih (mapSet m p.id p) (mapSet_key_id m p.id p hm rfl)

/-- Every entry of the project map is keyed by its project's id. -/
theorem buildProjectMap_key_id (groups : List Group) :
    ∀ kv ∈ buildProjectMap groups, kv.2.id = kv.1 := by
  have general : ∀ (gs : List Group) (m : List (String × Project)),
      (∀ kv ∈ m, kv.2.id = kv.1) →
      ∀ kv ∈ gs.foldl
        (fun m g =>
          match g.projects with
          | none => m
          | some ps => ps.foldl (fun m p => mapSet m p.id p) m) m,
        kv.2.id = kv.1 := by
    intro gs
    induction gs with
    | nil => intro m hm; exact hm
    | cons g gs ih =>
      intro m hm
      cases hg : g.projects with
      | none => simpa [hg] using ih m hm
      | some ps => simpa [hg] using ih _ (foldl_mapSet_key_id ps m hm)
  exact general groups [] (by simp)

/-- A successful projectMap lookup returns the project whose id is the
looked-up key. -/
theorem mapGet_buildProjectMap_id (groups : List Group) (k : String) (p : Project)
    (h : mapGet (buildProjectMap groups) k = some p) : p.id = k := by
  unfold mapGet at h
  cases hf : (buildProjectMap groups).find? (fun kv => kv.1 == k) with
  | none => rw [hf] at h; simp at h
  | some kv =>
    rw [hf] at h
    have hmem := List.mem_of_find?_eq_some hf
    have hpred := List.find?_some hf
    have hid := buildProjectMap_key_id groups kv hmem
    have hkv : kv.2 = p := by simpa using h
    rw [← hkv, hid]
    exact beq_iff_eq.mp hpred

/-- Membership of a key in a projects fold of the map. -/
theorem mapGet_foldl_isSome (ps : List Project) (m : List (String × Project))
    (k : String) :
    ((mapGet (ps.foldl (fun m p => mapSet m p.id p) m) k).isSome = true ↔
      ((∃ p ∈ ps, p.id = k) ∨ (mapGet m k).isSome = true)) := by
  induction ps generalizing m with
  | nil => simp
  | cons p ps ih =>
    simp only [List.foldl_cons]
    rw [ih (mapSet m p.id p)]
    rw [mapGet_mapSet]
    by_cases h : k = p.id
    · simp [h, List.mem_cons]
    · have h' : ¬p.id = k := fun hh => h hh.symm
      simp [if_neg h, List.mem_cons, h']

/-- A key is in the project map exactly when it is one of the original
project ids. -/
theorem mapGet_buildProjectMap_isSome (groups : List Group) (k : String) :
    ((mapGet (buildProjectMap groups) k).isSome = true ↔
      k ∈ originalProjectIds groups) := by
  have general : ∀ (gs : List Group) (m : List (String × Project)),
      ((mapGet (gs.foldl
        (fun m g =>
          match g.projects with
          | none => m
          | some ps => ps.foldl (fun m p => mapSet m p.id p) m) m) k).isSome = true ↔
        ((∃ g ∈ gs, ∃ ps, g.projects = some ps ∧ ∃ p ∈ ps, p.id = k) ∨
          (mapGet m k).isSome = true)) := by
    intro gs
    induction gs with
    | nil => simp
    | cons g gs ih =>
      intro m
      simp only [List.foldl_cons]
      rw [ih]
      cases hg : g.projects with
      | none =>
        simp only [hg]
        constructor
        · rintro (h | h)
          · exact Or.inl (by
              rcases h with ⟨g', hg', rest⟩
              exact ⟨g', List.mem_cons_of_mem g hg', rest⟩)
          · exact Or.inr h
        · rintro (⟨g', hg', ps, hps, rest⟩ | h)
          · rcases List.mem_cons.mp hg' with h1 | h2
            · rw [h1] at hps; rw [hps] at hg; cases hg
            · exact Or.inl ⟨g', h2, ps, hps, rest⟩
          · exact Or.inr h
      | some ps =>
        simp only [hg]
        rw [mapGet_foldl_isSome]
        constructor
        · rintro (h | h | h)
          · exact Or.inl (by
              rcases h with ⟨g', hg', rest⟩
              exact ⟨g', List.mem_cons_of_mem g hg', rest⟩)
          · exact Or.inl ⟨g, List.mem_cons_self g gs, ps, hg, h⟩
          · exact Or.inr h
        · rintro (⟨g', hg', ps', hps', rest⟩ | h)
          · rcases List.mem_cons.mp hg' with h1 | h2
            · rw [h1] at hps'
              rw [hps'] at hg
              injection hg with hg
              exact Or.inr (Or.inl (hg ▸ rest))
            · exact Or.inl ⟨g', h2, ps', hps', rest⟩
          · exact Or.inr (Or.inr h)
  rw [buildProjectMap, general groups []]
  have hnil : (mapGet ([] : List (String × Project)) k).isSome = false := rfl
  rw [hnil]
  simp only [Bool.false_eq_true, or_false]
  unfold originalProjectIds
  constructor
  · rintro ⟨g, hg, ps, hps, p, hp, hk⟩
    exact List.mem_map.mpr
      ⟨p, List.mem_flatten.mpr ⟨ps, List.mem_filterMap.mpr ⟨g, hg, hps⟩, hp⟩, hk⟩
  · intro hmem
    rcases List.mem_map.mp hmem with ⟨p, hpf, hk⟩
    rcases List.mem_flatten.mp hpf with ⟨ps, hpsf, hp⟩
    rcases List.mem_filterMap.mp hpsf with ⟨g, hg, hps⟩
    exact ⟨g, hg, ps, hps, p, hp, hk⟩

/-- Projecting a null-filtered map lookup back to ids keeps exactly the
ids present in the map, in order. -/
theorem filterMap_mapGet_ids (pm : List (String × Project))
    (hinv : ∀ k p, mapGet pm k = some p → p.id = k) (ids : List String) :
    (ids.filterMap (mapGet pm)).map Project.id =
      ids.filter (fun k => (mapGet pm k).isSome) := by
  induction ids with
  | nil => simp
  | cons a ids ih =>
    cases h : mapGet pm a with
    | none => simp [List.filterMap_cons, h, List.filter_cons, ih]
    | some p => simp [List.filterMap_cons, h, List.filter_cons, ih, hinv a p h]

/-- The reorder loop builds one output group per requested order. -/
theorem reorderLoop_length (pm : List (String × Project)) (groups : List Group)
    (newId : Nat → String) (orders : List GroupOrder) (k : Nat) :
    (reorderLoop pm groups newId orders k).length = orders.length := by
  induction orders generalizing k with
  | nil => rfl
  | cons o rest ih => simp [reorderLoop, ih]

/-- Pointwise equality justifying the spec-level "found in the original
set of projects" filter. -/
theorem mapGet_isSome_decide_mem (groups : List Group) (x : String) :
    (mapGet (buildProjectMap groups) x).isSome =
      decide (x ∈ originalProjectIds groups) := by
  cases his : (mapGet (buildProjectMap groups) x).isSome with
  | false =>
    have hnm : ¬x ∈ originalProjectIds groups := fun hmem => by
      rw [(mapGet_buildProjectMap_isSome groups x).mpr hmem] at his
      cases his
    simp [hnm]
  | true => simp [(mapGet_buildProjectMap_isSome groups x).mp his]

/-- The i-th output of the reorder loop is the entry built from the i-th
order at position `k + i`. -/
theorem reorderLoop_get (pm : List (String × Project)) (groups : List Group)
    (newId : Nat → String) (orders : List GroupOrder) (k i : Nat) (o : GroupOrder)
    (ho : orders[i]? = some o) :
    (reorderLoop pm groups newId orders k)[i]? =
      some (reorderEntry pm groups newId (k + i) o) := by
  induction orders generalizing k i with
  | nil => simp at ho
  | cons o' rest ih =>
    cases i with
    | zero =>
      simp at ho
      simp [reorderLoop, ho]
    | succ i =>
      simp only [List.getElem?_cons_succ] at ho
      have := ih (k + 1) i ho
      simpa [reorderLoop, Nat.add_assoc, Nat.add_comm 1 i] using this

/-- C5: for every reorder request over an existing group list (one entry
per group id, matching the JS object identity of the mutated groups),
every output group's project list follows the supplied `projectIds` order
exactly, keeping precisely the ids present among the original projects
(unknown ids are dropped), and one output group is produced per request
entry. -/
theorem C5_reorder_matches_order (newId : Nat → String) (groups : List Group)
    (orders : List GroupOrder)
    (hids : (orders.map GroupOrder.groupId).Nodup) :
    (reorderGroups newId groups orders).length = orders.length ∧
    ∀ (i : Nat) (o : GroupOrder), orders[i]? = some o →
      ∃ g, (reorderGroups newId groups orders)[i]? = some g ∧
        (g.projects.getD []).map Project.id =
          o.projectIds.filter
            (fun pid => decide (pid ∈ originalProjectIds groups)) := by
  constructor
  · exact reorderLoop_length _ _ _ _ 0
  · intro i o ho
    refine ⟨reorderEntry (buildProjectMap groups) groups newId (0 + i) o,
      reorderLoop_get _ _ _ _ 0 i o ho, ?_⟩
    have hproj : (reorderEntry (buildProjectMap groups) groups newId (0 + i) o).projects
        = some (o.projectIds.filterMap (mapGet (buildProjectMap groups))) := by
      unfold reorderEntry
      cases groups.find? (fun g => g.id == o.groupId) <;> rfl
    rw [hproj]
    simp only [Option.getD_some]
    rw [filterMap_mapGet_ids _ (fun k p h => mapGet_buildProjectMap_id groups k p h)]
    exact List.filter_congr (fun x _ => mapGet_isSome_decide_mem groups x)

/-- Witness for C5: reordering the example groups puts exactly `p3, p1`
(in that order, the unknown id `zz` dropped) into the first output
group. -/
theorem C5_reorder_matches_order_witness :
    ∃ g, (reorderGroups newIdEx groupsEx ordersEx)[0]? = some g ∧
      (g.projects.getD []).map Project.id =
        (GroupOrder.mk "g1" ["p3", "zz", "p1"]).projectIds.filter
          (fun pid => decide (pid ∈ originalProjectIds groupsEx)) :=
  (C5_reorder_matches_order newIdEx groupsEx ordersEx (by decide)).2 0
    (GroupOrder.mk "g1" ["p3", "zz", "p1"]) rfl

/-- C9: `reorderGroups` persists exactly the groups listed in the request,
in request order: the i-th stored group is the existing group with the
requested id (its projects overwritten by the matched ones) when one
exists, and otherwise a newly created group named "Group #(i+1)" holding
the matched projects; with exactly one stored group per request entry,
every existing group whose id is not requested is dropped. -/
theorem C9_reorder_persists_exact_list (newId : Nat → String)
    (groups : List Group) (orders : List GroupOrder)
    (hids : (orders.map GroupOrder.groupId).Nodup) :
    (reorderGroups newId groups orders).length = orders.length ∧
    ∀ (i : Nat) (o : GroupOrder), orders[i]? = some o →
      (reorderGroups newId groups orders)[i]? =
        some (match groups.find? (fun g => g.id == o.groupId) with
          | some g =>
            { g with
              projects := some (o.projectIds.filterMap (mapGet (buildProjectMap groups))) }
          | none =>
            { id := newId i
              groupName := some ("Group #" ++ toString (i + 1))
              collapsed := false
              projects := some (o.projectIds.filterMap (mapGet (buildProjectMap groups))) }) := by
  constructor
  · exact reorderLoop_length _ _ _ _ 0
  · intro i o ho
    have hget := reorderLoop_get (buildProjectMap groups) groups newId orders 0 i o ho
    unfold reorderGroups
    rw [hget]
    unfold reorderEntry
    cases hf : groups.find? (fun g => g.id == o.groupId) <;> simp [hf, Nat.zero_add]

/-- Witness for C9: the second request entry names the unknown id `gNew`,
so the second stored group is freshly created as "Group #2" with project
`p2`. -/
theorem C9_reorder_persists_exact_list_witness :
    (reorderGroups newIdEx groupsEx ordersEx)[1]? =
      some { id := "fresh1", groupName := some "Group #2", collapsed := false
             projects := some [Project.mk "p2" "proj two" "/b"] } :=
  Eq.trans
    ((C9_reorder_persists_exact_list newIdEx groupsEx ordersEx (by decide)).2 1
      (GroupOrder.mk "gNew" ["p2"]) rfl)
    rfl

/-- Updating one key of a field list leaves lookups of other keys
unchanged. -/
theorem find?_map_setKey (fs : List (String × JsonVal)) (k k' : String)
    (x : JsonVal) (h : ¬k' = k) :
    (fs.map (fun kv => if kv.1 == k then (k, x) else kv)).find?
        (fun kv => kv.1 == k') =
      fs.find? (fun kv => kv.1 == k') := by
  induction fs with
  | nil => rfl
  | cons kv fs ih =>
    simp only [List.map_cons, List.find?_cons]
    by_cases hb : kv.1 = k
    · have hp1 : (k == k') = false := by
        rw [beq_eq_false_iff_ne]; exact fun hh => h hh.symm
      have hp2 : (kv.1 == k') = false := by
        rw [beq_eq_false_iff_ne, hb]; exact fun hh => h hh.symm
      have hhead : (if (kv.1 == k) = true then (k, x) else kv) = (k, x) :=
        if_pos (beq_iff_eq.mpr hb)
      rw [hhead, hp2, show ((k, x).1 == k') = false from hp1]
      exact ih
    · have hhead : (if (kv.1 == k) = true then (k, x) else kv) = kv :=
        if_neg (fun hc => hb (beq_iff_eq.mp hc))
      rw [hhead]
      cases hp : (kv.1 == k') with
      | true => rfl
      | false => exact ih

/-- Removing one key of a field list leaves lookups of other keys
unchanged. -/
theorem find?_filter_delKey (fs : List (String × JsonVal)) (k k' : String)
    (h : ¬k' = k) :
    (fs.filter (fun kv => kv.1 != k)).find? (fun kv => kv.1 == k') =
      fs.find? (fun kv => kv.1 == k') := by
  induction fs with
  | nil => rfl
  | cons kv fs ih =>
    rw [List.filter_cons]
    by_cases hb : kv.1 = k
    · have hp2 : (kv.1 == k') = false := by
        rw [beq_eq_false_iff_ne, hb]; exact fun hh => h hh.symm
      have hcond : (kv.1 != k) = false := by
        simp [bne, beq_iff_eq, hb]
      rw [hcond, if_neg (by simp), List.find?_cons, hp2]
      exact ih
    · have hcond : (kv.1 != k) = true := by
        simp [bne, beq_iff_eq, hb]
      rw [hcond, if_pos rfl, List.find?_cons, List.find?_cons]
      cases hp : (kv.1 == k') with
      | true => rfl
      | false => exact ih

/-- A property write to key `k` does not change reads of other keys. -/
theorem jsGet_objSet_ne (v : JsonVal) (k k' : String) (x : JsonVal)
    (h : ¬k' = k) : jsGet (objSet v k x) k' = jsGet v k' := by
  cases v with
  | obj fs =>
    simp only [objSet]
    by_cases ha : fs.any (fun kv => kv.1 == k)
    · rw [if_pos ha]
      simp only [jsGet]
      rw [find?_map_setKey fs k k' x h]
    · rw [if_neg ha]
      simp only [jsGet]
      rw [List.find?_append]
      have hp : (k == k') = false := by
        rw [beq_eq_false_iff_ne]; exact fun hh => h hh.symm
      have hnone : List.find? (fun kv => kv.1 == k') [(k, x)] = none := by
        simp [List.find?_cons, hp]
      rw [hnone]
      cases List.find? (fun kv => kv.1 == k') fs <;> rfl
  | null => rfl
  | bool b => rfl
  | num n => rfl
  | str s => rfl
  | arr xs => rfl

/-- A property delete of key `k` does not change reads of other keys. -/
theorem jsGet_objDelete_ne (v : JsonVal) (k k' : String) (h : ¬k' = k) :
    jsGet (objDelete v k) k' = jsGet v k' := by
  cases v with
  | obj fs =>
    simp only [objDelete, jsGet]
    rw [find?_filter_delKey fs k k' h]
  | null => rfl
  | bool b => rfl
  | num n => rfl
  | str s => rfl
  | arr xs => rfl

/-- The legacy-name fixup touches only `name` and `groupName`. -/
theorem jsGet_fixupName (g : JsonVal) (k : String) (h1 : ¬k = "groupName")
    (h2 : ¬k = "name") : jsGet (fixupName g) k = jsGet g k := by
  unfold fixupName
  by_cases hc :
      (jsTruthyOpt (jsGet g "name") && !jsTruthyOpt (jsGet g "groupName")) = true
  · rw [if_pos hc, jsGet_objDelete_ne _ _ _ h2, jsGet_objSet_ne _ _ _ _ h1]
  · rw [if_neg hc]

/-- The fixup is the identity when the group has no truthy legacy
`name`. -/
theorem fixupName_of_name_falsy (g : JsonVal)
    (h : jsTruthyOpt (jsGet g "name") = false) : fixupName g = g := by
  unfold fixupName
  rw [if_neg (by simp [h])]

/-- The fixup is the identity when `groupName` is already truthy. -/
theorem fixupName_of_groupName_truthy (g : JsonVal)
    (h : jsTruthyOpt (jsGet g "groupName") = true) : fixupName g = g := by
  unfold fixupName
  rw [if_neg (by simp [h])]

/-- The fixup of an object is an object. -/
theorem fixupName_obj (fs : List (String × JsonVal)) :
    ∃ fs', fixupName (JsonVal.obj fs) = JsonVal.obj fs' := by
  unfold fixupName
  by_cases hc :
      (jsTruthyOpt (jsGet (JsonVal.obj fs) "name") &&
        !jsTruthyOpt (jsGet (JsonVal.obj fs) "groupName")) = true
  · rw [if_pos hc]
    simp only [objSet]
    by_cases ha : fs.any (fun kv => kv.1 == "groupName")
    · rw [if_pos ha]; exact ⟨_, rfl⟩
    · rw [if_neg ha]; exact ⟨_, rfl⟩
  · rw [if_neg hc]; exact ⟨fs, rfl⟩

/-- A truthy value is not loosely null. -/
theorem looseNull_of_truthy (o : Option JsonVal) (h : jsTruthyOpt o = true) :
    looseNull o = false := by
  cases o with
  | none => simp [jsTruthyOpt] at h
  | some v =>
    cases v with
    | null => simp [jsTruthyOpt, jsTruthy] at h
    | bool b => rfl
    | num n => rfl
    | str s => rfl
    | arr xs => rfl
    | obj fs => rfl

/-- A save can only happen with the invalid flag clear and every group
either kept or delete-marked. -/
theorem editLoop_saved_steps (gs : List JsonVal) :
    ∀ (invalid : Bool) (kept kept' : List JsonVal),
      editLoop gs invalid kept = SaveResult.saved kept' →
      invalid = false ∧
        ∀ g ∈ gs, (∃ g', groupStep g = GroupStep.keep g') ∨
          groupStep g = GroupStep.deleteStep := by
  induction gs with
  | nil =>
    intro invalid kept kept' hsave
    cases invalid with
    | true => simp [editLoop] at hsave
    | false => exact ⟨rfl, by simp⟩
  | cons g rest ih =>
    intro invalid kept kept' hsave
    simp only [editLoop] at hsave
    cases hs : groupStep g with
    | throwStep => rw [hs] at hsave; cases hsave
    | deleteStep =>
      rw [hs] at hsave
      obtain ⟨hinv, hmem⟩ := ih invalid kept kept' hsave
      refine ⟨hinv, ?_⟩
      intro x hx
      rcases List.mem_cons.mp hx with h1 | h2
      · exact Or.inr (h1 ▸ hs)
      · exact hmem x h2
    | invalidBreak => rw [hs] at hsave; cases hsave
    | invalidCont =>
      rw [hs] at hsave
      have := (ih true kept kept' hsave).1
      cases this
    | keep g' =>
      rw [hs] at hsave
      obtain ⟨hinv, hmem⟩ := ih invalid (kept ++ [g']) kept' hsave
      refine ⟨hinv, ?_⟩
      intro x hx
      rcases List.mem_cons.mp hx with h1 | h2
      · exact Or.inl ⟨g', h1 ▸ hs⟩
      · exact hmem x h2

/-- Once the invalid flag is set, a throw-free remainder always ends in
the schema error message. -/
theorem editLoop_invalid_true (gs : List JsonVal) :
    ∀ kept : List JsonVal, (∀ g ∈ gs, groupStep g ≠ GroupStep.throwStep) →
      editLoop gs true kept = SaveResult.schemaError := by
  induction gs with
  | nil => intro kept _; rfl
  | cons g rest ih =>
    intro kept hnt
    simp only [editLoop]
    cases hs : groupStep g with
    | throwStep => exact absurd hs (hnt g (List.mem_cons_self g rest))
    | deleteStep => exact ih kept (fun x hx => hnt x (List.mem_cons_of_mem g hx))
    | invalidBreak => rfl
    | invalidCont => exact ih kept (fun x hx => hnt x (List.mem_cons_of_mem g hx))
    | keep g' => exact ih (kept ++ [g']) (fun x hx => hnt x (List.mem_cons_of_mem g hx))

/-- A throw-free document with an invalid group ends in the schema error
message, whatever the current flag and accumulator. -/
theorem editLoop_invalid_member (gs : List JsonVal) :
    ∀ (invalid : Bool) (kept : List JsonVal),
      (∀ g ∈ gs, groupStep g ≠ GroupStep.throwStep) →
      (∃ g ∈ gs, groupStep g = GroupStep.invalidBreak ∨
        groupStep g = GroupStep.invalidCont) →
      editLoop gs invalid kept = SaveResult.schemaError := by
  induction gs with
  | nil =>
    intro _ _ _ hex
    rcases hex with ⟨g, hg, _⟩
    simp at hg
  | cons g rest ih =>
    intro invalid kept hnt hex
    simp only [editLoop]
    cases hs : groupStep g with
    | throwStep => exact absurd hs (hnt g (List.mem_cons_self g rest))
    | invalidBreak => rfl
    | invalidCont =>
      exact editLoop_invalid_true rest kept
        (fun x hx => hnt x (List.mem_cons_of_mem g hx))
    | deleteStep =>
      rcases hex with ⟨x, hx, hor⟩
      rcases List.mem_cons.mp hx with h1 | h2
      · rw [h1, hs] at hor
        rcases hor with hh | hh <;> cases hh
      · exact ih invalid kept (fun y hy => hnt y (List.mem_cons_of_mem g hy))
          ⟨x, h2, hor⟩
    | keep g' =>
      rcases hex with ⟨x, hx, hor⟩
      rcases List.mem_cons.mp hx with h1 | h2
      · rw [h1, hs] at hor
        rcases hor with hh | hh <;> cases hh
      · exact ih invalid (kept ++ [g'])
          (fun y hy => hnt y (List.mem_cons_of_mem g hy)) ⟨x, h2, hor⟩

/-- A document whose groups are all kept or deleted is saved. -/
theorem editLoop_all_keep (gs : List JsonVal) :
    ∀ kept : List JsonVal,
      (∀ g ∈ gs, (∃ g', groupStep g = GroupStep.keep g') ∨
        groupStep g = GroupStep.deleteStep) →
      ∃ kept', editLoop gs false kept = SaveResult.saved kept' := by
  induction gs with
  | nil => intro kept _; exact ⟨_, rfl⟩
  | cons g rest ih =>
    intro kept hsteps
    simp only [editLoop]
    rcases hsteps g (List.mem_cons_self g rest) with ⟨g', hs⟩ | hs
    · rw [hs]
      exact ih (kept ++ [g']) (fun x hx => hsteps x (List.mem_cons_of_mem g hx))
    · rw [hs]
      exact ih kept (fun x hx => hsteps x (List.mem_cons_of_mem g hx))

/-- A delete-marked group is invisible to the rest of the save: the loop
result is the same as if the group were absent. -/
theorem editLoop_delete_skip (g : JsonVal) (hs : groupStep g = GroupStep.deleteStep)
    (pre : List JsonVal) :
    ∀ (post : List JsonVal) (invalid : Bool) (kept : List JsonVal),
      editLoop (pre ++ g :: post) invalid kept =
        editLoop (pre ++ post) invalid kept := by
  induction pre with
  | nil =>
    intro post invalid kept
    simp only [List.nil_append, editLoop]
    rw [hs]
  | cons a pre ih =>
    intro post invalid kept
    simp only [List.cons_append, editLoop]
    cases ha : groupStep a with
    | throwStep => rfl
    | deleteStep => exact ih post invalid kept
    | invalidBreak => rfl
    | invalidCont => exact ih post true kept
    | keep a' => exact ih post invalid (kept ++ [a'])

/-- An object group without a truthy id, and not caught by the
empty-unnamed cleanup, fails the group-level checks. -/
theorem groupStep_invalidBreak_of_no_id (fs : List (String × JsonVal))
    (hid : jsTruthyOpt (jsGet (JsonVal.obj fs) "id") = false)
    (hdel : emptyUnnamedCond (fixupName (JsonVal.obj fs)) = false) :
    groupStep (JsonVal.obj fs) = GroupStep.invalidBreak := by
  have hid' : jsTruthyOpt (jsGet (fixupName (JsonVal.obj fs)) "id") = false := by
    rw [jsGet_fixupName _ _ (by decide) (by decide)]
    exact hid
  simp only [groupStep]
  simp [hdel, hid']

/-- An object group carrying a projects array with an invalid member
fails validation (at group level or at project level). -/
theorem groupStep_of_bad_project (fs : List (String × JsonVal))
    (ps : List JsonVal) (p : JsonVal)
    (hpr : jsGet (JsonVal.obj fs) "projects" = some (JsonVal.arr ps))
    (hp : p ∈ ps) (hpv : projectValid p = false) :
    groupStep (JsonVal.obj fs) = GroupStep.invalidBreak ∨
      groupStep (JsonVal.obj fs) = GroupStep.invalidCont := by
  have hpr' : jsGet (fixupName (JsonVal.obj fs)) "projects" =
      some (JsonVal.arr ps) := by
    rw [jsGet_fixupName _ _ (by decide) (by decide)]
    exact hpr
  have hne : ps ≠ [] := List.ne_nil_of_mem hp
  have hlf : jsLengthFalsy (jsGet (fixupName (JsonVal.obj fs)) "projects") = false := by
    rw [hpr']
    simp [jsLengthFalsy, hne]
  have hln : looseNull (jsGet (fixupName (JsonVal.obj fs)) "projects") = false := by
    rw [hpr']
    rfl
  have hdel : emptyUnnamedCond (fixupName (JsonVal.obj fs)) = false := by
    unfold emptyUnnamedCond
    rw [hln, hlf]
    simp
  have hall : ps.all projectValid = false :=
    List.all_eq_false.mpr ⟨p, hp, by simp [hpv]⟩
  by_cases hc :
      (!jsTruthy (fixupName (JsonVal.obj fs)) ||
        !jsTruthyOpt (jsGet (fixupName (JsonVal.obj fs)) "id") ||
        looseNull (jsGet (fixupName (JsonVal.obj fs)) "groupName") ||
        !jsTruthyOpt (jsGet (fixupName (JsonVal.obj fs)) "projects") ||
        !isArrayOpt (jsGet (fixupName (JsonVal.obj fs)) "projects")) = true
  · left
    simp only [groupStep]
    simp [hdel, hc]
  · right
    rw [Bool.not_eq_true] at hc
    simp only [Bool.or_eq_false_iff] at hc
    obtain ⟨⟨⟨⟨ha, hb⟩, hcx⟩, hd⟩, he⟩ := hc
    simp only [Bool.not_eq_false'] at ha hb hd he
    have hptr : jsTruthyOpt (some (JsonVal.arr ps)) = true := rfl
    have harr : isArrayOpt (some (JsonVal.arr ps)) = true := rfl
    simp only [groupStep]
    simp [hdel, ha, hb, hcx, hd, he, hpr', hall, hptr, harr]

/-- A well-formed group is kept (with its projects cleaned). -/
theorem groupStep_keep_of_wellFormed (g : JsonVal)
    (hwf : wellFormedGroupB g = true) :
    ∃ g', groupStep g = GroupStep.keep g' := by
  cases g with
  | null => simp [wellFormedGroupB] at hwf
  | bool b => simp [wellFormedGroupB] at hwf
  | num n => simp [wellFormedGroupB] at hwf
  | str s => simp [wellFormedGroupB] at hwf
  | arr xs => simp [wellFormedGroupB] at hwf
  | obj fs =>
    simp only [wellFormedGroupB, Bool.and_eq_true] at hwf
    obtain ⟨⟨hid, hgn⟩, hprm⟩ := hwf
    cases hpr : jsGet (JsonVal.obj fs) "projects" with
    | none => rw [hpr] at hprm; simp at hprm
    | some v =>
      cases v with
      | arr ps =>
        rw [hpr] at hprm
        have hall : ps.all projectValid = true := hprm
        have hfix : fixupName (JsonVal.obj fs) = JsonVal.obj fs :=
          fixupName_of_groupName_truthy _ hgn
        have hln : looseNull (jsGet (JsonVal.obj fs) "groupName") = false :=
          looseNull_of_truthy _ hgn
        have hdel : emptyUnnamedCond (JsonVal.obj fs) = false := by
          unfold emptyUnnamedCond
          rw [hln]
          simp
        have hptr : jsTruthyOpt (some (JsonVal.arr ps)) = true := rfl
        have harr : isArrayOpt (some (JsonVal.arr ps)) = true := rfl
        refine ⟨objSet (JsonVal.obj fs) "projects"
          (JsonVal.arr (ps.map (fun p => objDelete p "imageFileName"))), ?_⟩
        have htr : jsTruthy (JsonVal.obj fs) = true := rfl
        simp only [groupStep]
        rw [hfix]
        simp [hdel, hid, hln, hpr, hall, hptr, harr, htr]
      | null => rw [hpr] at hprm; simp at hprm
      | bool b => rw [hpr] at hprm; simp at hprm
      | num n => rw [hpr] at hprm; simp at hprm
      | str s => rw [hpr] at hprm; simp at hprm
      | obj fs' => rw [hpr] at hprm; simp at hprm

/-- C6 (amended): manual-edit validation never accepts a document whose
group object lacks a truthy `id` — except for empty unnamed groups, which
the cleanup silently drops instead (see C10) — never accepts a document
whose group carries a projects array containing a project without truthy
`id`, `name` and `path`, and accepts every well-formed document (array of
object groups with truthy id, truthy groupName and a projects array of
valid projects). -/
theorem C6_manual_edit_validation :
    (∀ (pre post : List JsonVal) (fs : List (String × JsonVal)),
      jsTruthyOpt (jsGet (JsonVal.obj fs) "id") = false →
      emptyUnnamedCond (fixupName (JsonVal.obj fs)) = false →
      ∀ kept, handleManualEditSave
          (some (JsonVal.arr (pre ++ JsonVal.obj fs :: post))) ≠
        SaveResult.saved kept) ∧
    (∀ (pre post : List JsonVal) (fs : List (String × JsonVal))
        (ps : List JsonVal) (p : JsonVal),
      jsGet (JsonVal.obj fs) "projects" = some (JsonVal.arr ps) →
      p ∈ ps → projectValid p = false →
      ∀ kept, handleManualEditSave
          (some (JsonVal.arr (pre ++ JsonVal.obj fs :: post))) ≠
        SaveResult.saved kept) ∧
    (∀ gs : List JsonVal, (∀ g ∈ gs, wellFormedGroupB g = true) →
      ∃ kept,
        handleManualEditSave (some (JsonVal.arr gs)) = SaveResult.saved kept) := by
  refine ⟨?_, ?_, ?_⟩
  · intro pre post fs hid hdel kept hsave
    have hsteps := (editLoop_saved_steps (pre ++ JsonVal.obj fs :: post)
      false [] kept hsave).2
    have hmem : JsonVal.obj fs ∈ pre ++ JsonVal.obj fs :: post :=
      List.mem_append.mpr (Or.inr (List.mem_cons_self _ _))
    have hstep := groupStep_invalidBreak_of_no_id fs hid hdel
    rcases hsteps _ hmem with ⟨g', hk⟩ | hd
    · rw [hstep] at hk; cases hk
    · rw [hstep] at hd; cases hd
  · intro pre post fs ps p hpr hp hpv kept hsave
    have hsteps := (editLoop_saved_steps (pre ++ JsonVal.obj fs :: post)
      false [] kept hsave).2
    have hmem : JsonVal.obj fs ∈ pre ++ JsonVal.obj fs :: post :=
      List.mem_append.mpr (Or.inr (List.mem_cons_self _ _))
    have hstep := groupStep_of_bad_project fs ps p hpr hp hpv
    rcases hsteps _ hmem with ⟨g', hk⟩ | hd
    · rcases hstep with hs | hs <;> (rw [hs] at hk; cases hk)
    · rcases hstep with hs | hs <;> (rw [hs] at hd; cases hd)
  · intro gs hwf
    exact editLoop_all_keep gs []
      (fun g hg => Or.inl (groupStep_keep_of_wellFormed g (hwf g hg)))

/-- Counterexample for C6 as stated: the document `[\x7b\x7d]` contains a
group with no `id` at all, yet the handler accepts it and saves the empty
list (the empty unnamed group is silently removed instead of rejected). -/
theorem C6_manual_edit_validation_counterexample :
    jsTruthyOpt (jsGet (JsonVal.obj []) "id") = false ∧
    handleManualEditSave (some (JsonVal.arr [JsonVal.obj []])) =
      SaveResult.saved [] :=
  ⟨rfl, rfl⟩

/-- Witness for C6: a named group without id is rejected, a group with an
empty project object is rejected, and a fully well-formed document is
accepted. -/
theorem C6_manual_edit_validation_witness :
    (handleManualEditSave (some (JsonVal.arr
        [JsonVal.obj [("groupName", JsonVal.str "G"),
          ("projects", JsonVal.arr [])]])) ≠ SaveResult.saved []) ∧
    (handleManualEditSave (some (JsonVal.arr
        [JsonVal.obj [("id", JsonVal.str "i"), ("groupName", JsonVal.str "G"),
          ("projects", JsonVal.arr [JsonVal.obj []])]])) ≠
      SaveResult.saved []) ∧
    (∃ kept, handleManualEditSave (some (JsonVal.arr
        [JsonVal.obj [("id", JsonVal.str "gid"),
          ("groupName", JsonVal.str "G"),
          ("projects", JsonVal.arr [JsonVal.obj [("id", JsonVal.str "p"),
            ("name", JsonVal.str "n"), ("path", JsonVal.str "/x")]])]])) =
      SaveResult.saved kept) :=
  ⟨C6_manual_edit_validation.1 [] []
      [("groupName", JsonVal.str "G"), ("projects", JsonVal.arr [])] rfl rfl [],
   C6_manual_edit_validation.2.1 [] []
      [("id", JsonVal.str "i"), ("groupName", JsonVal.str "G"),
        ("projects", JsonVal.arr [JsonVal.obj []])]
      [JsonVal.obj []] (JsonVal.obj []) rfl (by simp) rfl [],
   C6_manual_edit_validation.2.2 _
      (fun g hg => by rw [List.mem_singleton.mp hg]; rfl)⟩

/-- C7 (amended): a document that does not parse is reported with the
parse-error message; a parsed non-array document and every throw-free
document with an invalid group are reported with the schema-error
message (a document containing a null or truthy-primitive group entry
instead makes the handler throw with no message); and in every case
`saveGroups` runs only when all groups passed validation, so any rejected
or throwing save leaves the backing store untouched. -/
theorem C7_rejection_leaves_store :
    (handleManualEditSave none = SaveResult.parseError) ∧
    (∀ v : JsonVal, (∀ gs : List JsonVal, v ≠ JsonVal.arr gs) →
      handleManualEditSave (some v) = SaveResult.schemaError) ∧
    (∀ gs : List JsonVal, (∀ g ∈ gs, groupStep g ≠ GroupStep.throwStep) →
      (∃ g ∈ gs, groupStep g = GroupStep.invalidBreak ∨
        groupStep g = GroupStep.invalidCont) →
      handleManualEditSave (some (JsonVal.arr gs)) = SaveResult.schemaError) ∧
    (∀ (gs kept : List JsonVal),
      handleManualEditSave (some (JsonVal.arr gs)) = SaveResult.saved kept →
      ∀ g ∈ gs, (∃ g', groupStep g = GroupStep.keep g') ∨
        groupStep g = GroupStep.deleteStep) := by
  refine ⟨rfl, ?_, ?_, ?_⟩
  · intro v hv
    cases v with
    | arr gs => exact absurd rfl (hv gs)
    | null => rfl
    | bool b => rfl
    | num n => rfl
    | str s => rfl
    | obj fs => rfl
  · intro gs hnt hex
    exact editLoop_invalid_member gs false [] hnt hex
  · intro gs kept hsave
    exact (editLoop_saved_steps gs false [] kept hsave).2

/-- Counterexample for C7 as stated: `[null]` parses as JSON and violates
the expected schema, but the handler throws a TypeError at the
`group.name` read before any user-visible message is produced. -/
theorem C7_rejection_leaves_store_counterexample :
    specSchemaOkB (JsonVal.arr [JsonVal.null]) = false ∧
    handleManualEditSave (some (JsonVal.arr [JsonVal.null])) =
      SaveResult.thrown :=
  ⟨rfl, rfl⟩

/-- Witness for C7: a non-array document and a document with an id-less
named group are reported as schema errors, and a saved document's single
group was kept by validation. -/
theorem C7_rejection_leaves_store_witness :
    (handleManualEditSave (some (JsonVal.obj [])) = SaveResult.schemaError) ∧
    (handleManualEditSave (some (JsonVal.arr
        [JsonVal.obj [("groupName", JsonVal.str "G")]])) =
      SaveResult.schemaError) ∧
    ((∃ g', groupStep (JsonVal.obj []) = GroupStep.keep g') ∨
      groupStep (JsonVal.obj []) = GroupStep.deleteStep) :=
  ⟨C7_rejection_leaves_store.2.1 (JsonVal.obj [])
      (fun gs h => by cases h),
   C7_rejection_leaves_store.2.2.1
      [JsonVal.obj [("groupName", JsonVal.str "G")]]
      (fun g hg hh => by rw [List.mem_singleton.mp hg] at hh; exact nomatch hh)
      ⟨JsonVal.obj [("groupName", JsonVal.str "G")], by simp, Or.inl rfl⟩,
   C7_rejection_leaves_store.2.2.2 [JsonVal.obj []] [] rfl
      (JsonVal.obj []) (by simp)⟩

/-- C8: git-repo detection and workspace-color lookup fail closed: when
`lstatSync` throws or the git child process fails, `isFolderGitRepo`
returns false; when the settings file is unreadable, its JSON is
malformed, or the color-customizations entry is nullish (making the inner
property read throw), `getWorkspaceColor` returns null; both are total
functions of their oracles, so no error propagates to the caller. -/
theorem C8_fail_closed :
    (∀ (env : GitEnv) (fPath : String),
      env.lstatIsDirectory fPath = Except.error () →
      isFolderGitRepo env fPath = false) ∧
    (∀ (env : GitEnv) (fPath : String) (isDir : Bool),
      env.lstatIsDirectory fPath = Except.ok isDir →
      env.gitCheckOutput (if isDir then fPath else env.dirname fPath) =
        Except.error () →
      isFolderGitRepo env fPath = false) ∧
    (∀ (env : ColorEnv) (projectPath : String),
      env.readFile (projectPath ++ "/.vscode/settings.json") =
        Except.error () →
      getWorkspaceColor env projectPath = none) ∧
    (∀ (env : ColorEnv) (projectPath : String) (content : String),
      env.readFile (projectPath ++ "/.vscode/settings.json") =
        Except.ok content →
      env.parseJson (jsTrim (stripLineComments content)) = Except.error () →
      getWorkspaceColor env projectPath = none) ∧
    (∀ (env : ColorEnv) (projectPath : String) (content : String)
        (settings : JsonVal),
      env.readFile (projectPath ++ "/.vscode/settings.json") =
        Except.ok content →
      env.parseJson (jsTrim (stripLineComments content)) =
        Except.ok settings →
      looseNull (jsGet settings "workbench.colorCustomizations") = true →
      getWorkspaceColor env projectPath = none) := by
  refine ⟨?_, ?_, ?_, ?_, ?_⟩
  · intro env fPath h
    unfold isFolderGitRepo
    rw [h]
    rfl
  · intro env fPath isDir h1 h2
    unfold isFolderGitRepo
    rw [h1]
    show (match ((fun a => !a.data.isEmpty) <$>
        env.gitCheckOutput (if isDir = true then fPath else env.dirname fPath) :
          Except Unit Bool) with
      | Except.ok b => b
      | Except.error _ => false) = false
    rw [h2]
    rfl
  · intro env projectPath h
    unfold getWorkspaceColor
    rw [h]
    rfl
  · intro env projectPath content h1 h2
    unfold getWorkspaceColor
    rw [h1]
    show (match (env.parseJson (jsTrim (stripLineComments content)) >>=
        fun settings =>
          match jsGet settings "workbench.colorCustomizations" with
          | none => Except.error ()
          | some JsonVal.null => Except.error ()
          | some cc =>
            pure (if jsTruthyOpt (jsGet cc "titleBar.activeBackground") = true then
                jsGet cc "titleBar.activeBackground"
              else jsGet cc "activityBar.background") :
            Except Unit (Option JsonVal)) with
      | Except.ok c => c
      | Except.error _ => none) = none
    rw [h2]
    rfl
  · intro env projectPath content settings h1 h2 hln
    unfold getWorkspaceColor
    rw [h1]
    show (match (env.parseJson (jsTrim (stripLineComments content)) >>=
        fun settings =>
          match jsGet settings "workbench.colorCustomizations" with
          | none => Except.error ()
          | some JsonVal.null => Except.error ()
          | some cc =>
            pure (if jsTruthyOpt (jsGet cc "titleBar.activeBackground") = true then
                jsGet cc "titleBar.activeBackground"
              else jsGet cc "activityBar.background") :
            Except Unit (Option JsonVal)) with
      | Except.ok c => c
      | Except.error _ => none) = none
    rw [h2]
    show (match (match jsGet settings "workbench.colorCustomizations" with
        | none => (Except.error () : Except Unit (Option JsonVal))
        | some JsonVal.null => Except.error ()
        | some cc =>
          pure (if jsTruthyOpt (jsGet cc "titleBar.activeBackground") = true then
              jsGet cc "titleBar.activeBackground"
            else jsGet cc "activityBar.background")) with
      | Except.ok c => c
      | Except.error _ => none) = none
    cases hj : jsGet settings "workbench.colorCustomizations" with
    | none => rfl
    | some v =>
      cases v with
      | null => rfl
      | bool b => rw [hj] at hln; simp [looseNull] at hln
      | num n => rw [hj] at hln; simp [looseNull] at hln
      | str s => rw [hj] at hln; simp [looseNull] at hln
      | arr xs => rw [hj] at hln; simp [looseNull] at hln
      | obj fs => rw [hj] at hln; simp [looseNull] at hln

/-- Witness for C8: with a throwing `lstatSync` the git check is false,
and with an unreadable settings file the workspace color is null. -/
theorem C8_fail_closed_witness :
    isFolderGitRepo gitEnvLstatThrows "/nowhere" = false ∧
    getWorkspaceColor colorEnvUnreadable "/proj" = none :=
  ⟨C8_fail_closed.1 gitEnvLstatThrows "/nowhere" rfl,
   C8_fail_closed.2.2.1 colorEnvUnreadable "/proj" rfl⟩

/-- C10 (amended): an object group whose `groupName` is null/undefined
and whose `projects` is missing, nullish, or of falsy length is silently
removed on save — even without an `id` — provided it has no truthy
legacy `name` field: the save behaves exactly as if the group were absent
from the document.  (A truthy `name` is first copied into `groupName`,
after which the group is validated normally and can be rejected.) -/
theorem C10_empty_unnamed_removed
    (pre post : List JsonVal) (fs : List (String × JsonVal))
    (hname : jsTruthyOpt (jsGet (JsonVal.obj fs) "name") = false)
    (hgn : looseNull (jsGet (JsonVal.obj fs) "groupName") = true)
    (hpr : looseNull (jsGet (JsonVal.obj fs) "projects") = true ∨
      jsLengthFalsy (jsGet (JsonVal.obj fs) "projects") = true) :
    handleManualEditSave (some (JsonVal.arr (pre ++ JsonVal.obj fs :: post))) =
      handleManualEditSave (some (JsonVal.arr (pre ++ post))) := by
  have hfix : fixupName (JsonVal.obj fs) = JsonVal.obj fs :=
    fixupName_of_name_falsy _ hname
  have htr : jsTruthy (JsonVal.obj fs) = true := rfl
  have hcond : emptyUnnamedCond (JsonVal.obj fs) = true := by
    unfold emptyUnnamedCond
    rw [hgn]
    rcases hpr with h | h <;> simp [h, htr]
  have hstep : groupStep (JsonVal.obj fs) = GroupStep.deleteStep := by
    simp only [groupStep]
    rw [hfix, hcond]
    rfl
  exact editLoop_delete_skip _ hstep pre post false []

/-- Counterexample for C10 as stated: the group `\x7b"name":"x"\x7d` has a
null/undefined `groupName` and no projects, yet it is not silently
removed — the legacy fixup turns `name` into `groupName` and the group is
then rejected for its missing id. -/
theorem C10_empty_unnamed_removed_counterexample :
    looseNull (jsGet legacyNameGroup "groupName") = true ∧
    looseNull (jsGet legacyNameGroup "projects") = true ∧
    jsTruthyOpt (jsGet legacyNameGroup "id") = false ∧
    handleManualEditSave (some (JsonVal.arr [legacyNameGroup])) =
      SaveResult.schemaError :=
  ⟨rfl, rfl, rfl, rfl⟩

/-- Witness for C10: saving `[\x7b\x7d]` is exactly like saving `[]`. -/
theorem C10_empty_unnamed_removed_witness :
    handleManualEditSave (some (JsonVal.arr [JsonVal.obj []])) =
      handleManualEditSave (some (JsonVal.arr [])) :=
  C10_empty_unnamed_removed [] [] [] rfl rfl (Or.inl rfl)

end VPD
